import Mathlib

/-!
Verification of the command-line argument front end in `src/shdc/args.cc`
(shader-language mask parsing, scanning, validation, help handling).

The file embeds `args_t::parse`, `parse_slang` and `validate` from
`src/shdc/args.cc` shallowly.  Collaborators that live elsewhere in the
repository (the `slang_t` enumeration of `types.h`, the getopt-based
argument scanner, `pystring::split`) are modelled from the spec, each
marked `Modelled from the spec:` in its doc comment.  Diagnostics written
to stderr are modelled as an explicit list of `Diag` events so that
emission and ordering claims can be stated.
-/

namespace shdc

/-! Modelled from the spec: the `slang_t` enumeration of `types.h` (not under
`src/`).  Canonical names are those of spec §3 and of the slang option's
metavar string in `args.cc`; bit positions are stable and dense (§3). -/

namespace slang_t

def NUM : Nat := 6

def to_str : Nat → String
  | 0 => "glsl330"
  | 1 => "glsl100"
  | 2 => "glsl300es"
  | 3 => "hlsl5"
  | 4 => "metal_macos"
  | 5 => "metal_ios"
  | _ => ""

def bit (i : Nat) : Nat := 2 ^ i

end slang_t

/-- The `args_t` result structure (fields as used by `args.cc`; defaults
modelled from the spec §3 lifecycle: all-empty/zero, `valid = false`). -/
structure args_t where
  valid : Bool := false
  input : String := ""
  output : String := ""
  slang : Nat := 0
  byte_code : Bool := false
  debug_dump : Bool := false
  exit_code : Int := 0
deriving DecidableEq, Repr

/-- One diagnostic message written to the stderr stream by `args.cc`. -/
inductive Diag where
  /-- "got argument without flag: ..." -/
  | strayArg (text : String)
  /-- "unknown flag ..." -/
  | unknownFlag (text : String)
  /-- "invalid use of flag ..." -/
  | invalidUse (text : String)
  /-- "error: unknown shader language '...'" -/
  | unknownSlang (item : String)
  /-- the help text printed by `print_help_string` -/
  | helpText
  /-- "error: no input file (--input [path])" -/
  | noInput
  /-- "error: no output file (--output [path])" -/
  | noOutput
  /-- "error: no shader languages (--slang ...)" -/
  | noSlang
deriving DecidableEq, Repr

/-- One entry of the static `option_list` table in `args.cc`. -/
structure getopt_option_t where
  name : String
  name_short : Char
  has_arg : Bool
  value : Char
  desc : String
deriving DecidableEq, Repr

/-- The static option table of `args.cc` (lines 13-21). -/
def option_list : List getopt_option_t :=
  [ ⟨"help", 'h', false, 'h', "print this help text"⟩,
    ⟨"input", 'i', true, 'i', "input source file"⟩,
    ⟨"output", 'o', true, 'o', "output source file"⟩,
    ⟨"slang", 'l', true, 'l', "output shader language(s)"⟩,
    ⟨"bytecode", 'b', false, 'b', "output bytecode (HLSL and Metal)"⟩,
    ⟨"dump", 'd', false, 'd', "dump debugging information to stderr"⟩ ]

/-- One event yielded by the argument scanner (spec §4.2): the codes
`'+'`, `'?'`, `'!'` of getopt become the three diagnostic variants. -/
inductive ScanEvent where
  | flagNoArg (code : Char)
  | flagWithArg (code : Char) (value : String)
  | strayPositional (text : String)
  | unknownFlag (text : String)
  | invalidUsage (text : String)
deriving DecidableEq, Repr

/-- Whether a token looks like a flag (leading dash). -/
def is_flag_token (tok : String) : Bool :=
  match tok.toList with
  | c :: _ => c = '-'
  | [] => false

/-- Modelled from the spec: option lookup of the getopt scanner (not under
`src/`) — a token names an option by its long name (`--name`) or by its
short code (`-c`). -/
def find_option (tok : String) : Option getopt_option_t :=
  option_list.find? fun o =>
    tok == "--" ++ o.name || tok == "-" ++ o.name_short.toString

/-- Modelled from the spec: the getopt-based ArgumentScanner (§4.2, not under
`src/`).  Events are emitted in input token order; a flag requiring a value
consumes the following token as that value, and a missing required value is
reported as `invalidUsage`; unrecognized flags and stray positionals do not
stop the scan. -/
def scan_events : List String → List ScanEvent
  | [] => []
  | tok :: rest =>
    if is_flag_token tok then
      match find_option tok with
      | some o =>
        if o.has_arg then
          match rest with
          | v :: rest2 => .flagWithArg o.value v :: scan_events rest2
          | [] => [.invalidUsage tok]
        else .flagNoArg o.value :: scan_events rest
      | none => .unknownFlag tok :: scan_events rest
    else .strayPositional tok :: scan_events rest

/-- Modelled from the spec: `pystring::split` on ":" as consumed by the
slang parser (not under `src/`); §4.3 matches only the non-empty segments
of the split, so empty segments are dropped. -/
def pystring_split (s : String) : List String :=
  ((s.toList.splitOn ':').filter fun cs => !cs.isEmpty).map String.mk

/-- The inner matching loop of `parse_slang` (args.cc lines 53-59): the
index of the first language whose canonical name equals `item`, if any. -/
def find_slang (item : String) : Option Nat :=
  (List.range slang_t.NUM).find? fun i => item == slang_t.to_str i

/-- The per-item loop of `parse_slang` (args.cc lines 51-66): OR the bit of
each matched item into `args.slang`; on the first unmatched item report it,
set `valid = false`, `exit_code = 10` and stop. -/
def parse_slang_go (a : args_t) : List String → args_t × List Diag × Bool
  | [] => (a, [], true)
  | item :: rest =>
    match find_slang item with
    | some i => parse_slang_go { a with slang := a.slang ||| slang_t.bit i } rest
    | none => ({ a with valid := false, exit_code := 10 }, [.unknownSlang item], false)

/-- `parse_slang` (args.cc lines 47-68): reset `args.slang` to zero, split
the value on ":", then run the per-item loop. -/
def parse_slang (a : args_t) (str : String) : args_t × List Diag × Bool :=
  parse_slang_go { a with slang := 0 } (pystring_split str)

/-- `validate` (args.cc lines 70-92): three independent checks, each with
its own diagnostic, then a single verdict. -/
def validate (a : args_t) : args_t × List Diag :=
  let d1 : List Diag := if a.input = "" then [.noInput] else []
  let d2 : List Diag := if a.output = "" then [.noOutput] else []
  let d3 : List Diag := if a.slang = 0 then [.noSlang] else []
  let err : Bool := decide (a.input = "") || decide (a.output = "") || decide (a.slang = 0)
  if err then ({ a with valid := false, exit_code := 10 }, d1 ++ d2 ++ d3)
  else ({ a with valid := true, exit_code := 0 }, d1 ++ d2 ++ d3)

/-- The event loop of `args_t::parse` (args.cc lines 102-139): the switch
over scanner events, with the early returns for help and for a failed
slang parse, followed by `validate` when the scan completes. -/
def parse_events (a : args_t) : List ScanEvent → args_t × List Diag
  | [] => validate a
  | ev :: rest =>
    match ev with
    | .strayPositional s =>
      let r := parse_events a rest
      (r.1, .strayArg s :: r.2)
    | .unknownFlag s =>
      let r := parse_events a rest
      (r.1, .unknownFlag s :: r.2)
    | .invalidUsage s =>
      let r := parse_events a rest
      (r.1, .invalidUse s :: r.2)
    | .flagWithArg c v =>
      if c = 'i' then parse_events { a with input := v } rest
      else if c = 'o' then parse_events { a with output := v } rest
      else if c = 'l' then
        let r := parse_slang a v
        if r.2.2 then
          let r2 := parse_events r.1 rest
          (r2.1, r.2.1 ++ r2.2)
        else (r.1, r.2.1)
      else parse_events a rest
    | .flagNoArg c =>
      if c = 'b' then parse_events { a with byte_code := true } rest
      else if c = 'd' then parse_events { a with debug_dump := true } rest
      else if c = 'h' then ({ a with valid := false, exit_code := 0 }, [.helpText])
      else parse_events a rest

/-- `args_t::parse` (args.cc lines 94-143): fresh defaults, scan the
argument list, run the event loop. -/
def parse (argv : List String) : args_t × List Diag :=
  parse_events {} (scan_events argv)

/-! Derived notions used to state and prove properties of the embedding. -/

/-- The bit contributed by one split segment (zero for an unknown one). -/
def seg_bit (item : String) : Nat :=
  match find_slang item with
  | some i => slang_t.bit i
  | none => 0

/-- Whether a split segment names a known shader language. -/
def seg_known (item : String) : Bool := (find_slang item).isSome

/-- The union of the bits of a list of split segments. -/
def mask_of : List String → Nat
  | [] => 0
  | item :: rest => seg_bit item ||| mask_of rest

/-- Whether a whole `-l` value parses without an unknown segment. -/
def slang_ok (v : String) : Bool := (pystring_split v).all seg_known

/-- The mask a successful slang parse of `v` produces. -/
def slang_mask_of (v : String) : Nat := mask_of (pystring_split v)

/-- The net effect of one non-terminating scanner event on the argument
record. -/
def apply_event (a : args_t) : ScanEvent → args_t
  | .flagWithArg c v =>
    if c = 'i' then { a with input := v }
    else if c = 'o' then { a with output := v }
    else if c = 'l' then { a with slang := slang_mask_of v }
    else a
  | .flagNoArg c =>
    if c = 'b' then { a with byte_code := true }
    else if c = 'd' then { a with debug_dump := true }
    else a
  | _ => a

/-- The net effect of a list of non-terminating scanner events. -/
def apply_events (a : args_t) (es : List ScanEvent) : args_t :=
  es.foldl apply_event a

/-- The diagnostics one non-terminating scanner event emits. -/
def event_diags : ScanEvent → List Diag
  | .strayPositional s => [.strayArg s]
  | .unknownFlag s => [.unknownFlag s]
  | .invalidUsage s => [.invalidUse s]
  | _ => []

/-- The diagnostics a list of non-terminating scanner events emits. -/
def scan_diags (es : List ScanEvent) : List Diag :=
  es.flatMap event_diags

/-- Whether an event lets the event loop continue (neither the help exit
nor a failing slang parse). -/
def ok_event : ScanEvent → Bool
  | .flagNoArg c => !(c = 'h')
  | .flagWithArg c v => !(c = 'l') || slang_ok v
  | _ => true

/-- Whether a whole event list is processed to the end (so that the
Validator runs). -/
def no_early_exit (es : List ScanEvent) : Bool := es.all ok_event

/-- Whether an event is the help flag. -/
def is_help_event : ScanEvent → Bool
  | .flagNoArg c => c = 'h'
  | _ => false

/-- Whether an event is a slang (`-l`) event. -/
def is_l_event : ScanEvent → Bool
  | .flagWithArg c _ => c = 'l'
  | _ => false

/-- Whether an event is one of the three diagnose-and-continue scanner
events (stray positional, unknown flag, invalid usage). -/
def is_diag_event : ScanEvent → Bool
  | .strayPositional _ => true
  | .unknownFlag _ => true
  | .invalidUsage _ => true
  | _ => false

/-- Whether a diagnostic is one emitted by the scanner (as opposed to the
Validator, the slang parser or help rendering). -/
def is_scan_diag : Diag → Bool
  | .strayArg _ => true
  | .unknownFlag _ => true
  | .invalidUse _ => true
  | _ => false

/-- Whether the event loop reaches a help event (every earlier event lets
it continue). -/
def reaches_help : List ScanEvent → Bool
  | [] => false
  | e :: rest => is_help_event e || (ok_event e && reaches_help rest)

/-- Two successive invocations of `args_t::parse` on the same argument
list (the source keeps no state between calls: only locals and the
immutable static option table). -/
def parse_twice (argv : List String) : (args_t × List Diag) × (args_t × List Diag) :=
  (parse argv, parse argv)

/-! Step lemmas for the scanner. -/

theorem scan_nil : scan_events [] = [] := rfl

theorem scan_i (p : String) (rest : List String) :
    scan_events ("-i" :: p :: rest) = .flagWithArg 'i' p :: scan_events rest := by
  rw [scan_events]
  rw [show is_flag_token "-i" = true from rfl]
  rw [if_pos rfl]
  rw [show find_option "-i" = some ⟨"input", 'i', true, 'i', "input source file"⟩ from rfl]
  rfl

theorem scan_o (p : String) (rest : List String) :
    scan_events ("-o" :: p :: rest) = .flagWithArg 'o' p :: scan_events rest := by
  rw [scan_events]
  rw [show is_flag_token "-o" = true from rfl]
  rw [if_pos rfl]
  rw [show find_option "-o" = some ⟨"output", 'o', true, 'o', "output source file"⟩ from rfl]
  rfl

theorem scan_l (p : String) (rest : List String) :
    scan_events ("-l" :: p :: rest) = .flagWithArg 'l' p :: scan_events rest := by
  rw [scan_events]
  rw [show is_flag_token "-l" = true from rfl]
  rw [if_pos rfl]
  rw [show find_option "-l" = some ⟨"slang", 'l', true, 'l', "output shader language(s)"⟩ from rfl]
  rfl

theorem scan_h (rest : List String) :
    scan_events ("-h" :: rest) = .flagNoArg 'h' :: scan_events rest := by
  rw [scan_events]
  rw [show is_flag_token "-h" = true from rfl]
  rw [if_pos rfl]
  rw [show find_option "-h" = some ⟨"help", 'h', false, 'h', "print this help text"⟩ from rfl]
  rfl

theorem scan_unknown (s : String) (rest : List String) (h1 : is_flag_token s = true)
    (h2 : find_option s = none) :
    scan_events (s :: rest) = .unknownFlag s :: scan_events rest := by
  rw [scan_events]
  rw [h1, if_pos rfl, h2]

theorem scan_stray (s : String) (rest : List String) (h1 : is_flag_token s = false) :
    scan_events (s :: rest) = .strayPositional s :: scan_events rest := by
  rw [scan_events]
  rw [h1]
  simp

/-! Step lemmas for the event loop. -/

theorem pe_nil (a : args_t) : parse_events a [] = validate a := rfl

theorem pe_stray (a : args_t) (s : String) (es : List ScanEvent) :
    parse_events a (.strayPositional s :: es) =
      ((parse_events a es).1, .strayArg s :: (parse_events a es).2) := rfl

theorem pe_unknown (a : args_t) (s : String) (es : List ScanEvent) :
    parse_events a (.unknownFlag s :: es) =
      ((parse_events a es).1, .unknownFlag s :: (parse_events a es).2) := rfl

theorem pe_invalid (a : args_t) (s : String) (es : List ScanEvent) :
    parse_events a (.invalidUsage s :: es) =
      ((parse_events a es).1, .invalidUse s :: (parse_events a es).2) := rfl

theorem pe_i (a : args_t) (v : String) (es : List ScanEvent) :
    parse_events a (.flagWithArg 'i' v :: es) = parse_events { a with input := v } es := rfl

theorem pe_o (a : args_t) (v : String) (es : List ScanEvent) :
    parse_events a (.flagWithArg 'o' v :: es) = parse_events { a with output := v } es := rfl

theorem pe_b (a : args_t) (es : List ScanEvent) :
    parse_events a (.flagNoArg 'b' :: es) = parse_events { a with byte_code := true } es := rfl

theorem pe_d (a : args_t) (es : List ScanEvent) :
    parse_events a (.flagNoArg 'd' :: es) = parse_events { a with debug_dump := true } es := rfl

theorem pe_h (a : args_t) (es : List ScanEvent) :
    parse_events a (.flagNoArg 'h' :: es) =
      ({ a with valid := false, exit_code := 0 }, [.helpText]) := rfl

theorem pe_l (a : args_t) (v : String) (es : List ScanEvent) :
    parse_events a (.flagWithArg 'l' v :: es) =
      (if (parse_slang a v).2.2 then
        ((parse_events (parse_slang a v).1 es).1,
         (parse_slang a v).2.1 ++ (parse_events (parse_slang a v).1 es).2)
      else ((parse_slang a v).1, (parse_slang a v).2.1)) := rfl

/-! Characterization of the slang parser. -/

theorem parse_slang_go_ok (L : List String) (h : ∀ item ∈ L, seg_known item = true)
    (a : args_t) :
    parse_slang_go a L = ({ a with slang := a.slang ||| mask_of L }, [], true) := by
  induction L generalizing a with
  | nil => simp [parse_slang_go, mask_of]
  | cons item rest ih =>
    have hk : seg_known item = true := h item (List.mem_cons_self item rest)
    obtain ⟨i, hi⟩ : ∃ i, find_slang item = some i := by
      rcases hfs : find_slang item with _ | i
      · rw [seg_known, hfs] at hk; simp at hk
      · exact ⟨i, rfl⟩
    have hrest : ∀ x ∈ rest, seg_known x = true := fun x hx => h x (List.mem_cons_of_mem _ hx)
    simp only [parse_slang_go, hi]
    rw [ih hrest]
    simp [mask_of, seg_bit, hi, Nat.lor_assoc]

theorem parse_slang_go_fail (pre : List String) (bad : String) (post : List String)
    (hpre : ∀ item ∈ pre, seg_known item = true) (hbad : find_slang bad = none)
    (a : args_t) :
    parse_slang_go a (pre ++ bad :: post) =
      ({ a with slang := a.slang ||| mask_of pre, valid := false, exit_code := 10 },
       [.unknownSlang bad], false) := by
  induction pre generalizing a with
  | nil => simp [parse_slang_go, hbad, mask_of]
  | cons item rest ih =>
    have hk : seg_known item = true := hpre item (List.mem_cons_self item rest)
    obtain ⟨i, hi⟩ : ∃ i, find_slang item = some i := by
      rcases hfs : find_slang item with _ | i
      · rw [seg_known, hfs] at hk; simp at hk
      · exact ⟨i, rfl⟩
    have hrest : ∀ x ∈ rest, seg_known x = true := fun x hx => hpre x (List.mem_cons_of_mem _ hx)
    simp only [List.cons_append, parse_slang_go, hi, List.append_eq]
    rw [ih hrest]
    simp [mask_of, seg_bit, hi, Nat.lor_assoc]

theorem parse_slang_of_ok (v : String) (h : slang_ok v = true) (a : args_t) :
    parse_slang a v = ({ a with slang := slang_mask_of v }, [], true) := by
  have : ∀ item ∈ pystring_split v, seg_known item = true := by
    simpa [slang_ok, List.all_eq_true] using h
  rw [parse_slang, parse_slang_go_ok _ this]
  simp [slang_mask_of]

theorem parse_slang_of_fail (v : String) (pre : List String) (bad : String)
    (post : List String) (hsplit : pystring_split v = pre ++ bad :: post)
    (hpre : ∀ item ∈ pre, seg_known item = true) (hbad : find_slang bad = none)
    (a : args_t) :
    parse_slang a v =
      ({ a with slang := mask_of pre, valid := false, exit_code := 10 },
       [.unknownSlang bad], false) := by
  rw [parse_slang, hsplit, parse_slang_go_fail pre bad post hpre hbad]
  simp

/-! Facts about the validator. -/

theorem validate_slang (a : args_t) : (validate a).1.slang = a.slang := by
  rw [validate]
  split <;> rfl

theorem validate_input (a : args_t) : (validate a).1.input = a.input := by
  rw [validate]
  split <;> rfl

theorem validate_output (a : args_t) : (validate a).1.output = a.output := by
  rw [validate]
  split <;> rfl

theorem validate_byte_code (a : args_t) : (validate a).1.byte_code = a.byte_code := by
  rw [validate]
  split <;> rfl

theorem validate_debug_dump (a : args_t) : (validate a).1.debug_dump = a.debug_dump := by
  rw [validate]
  split <;> rfl

/-! Composition of the event loop. -/

theorem apply_events_nil (a : args_t) : apply_events a [] = a := rfl

theorem apply_events_cons (a : args_t) (e : ScanEvent) (es : List ScanEvent) :
    apply_events a (e :: es) = apply_events (apply_event a e) es := rfl

theorem scan_diags_nil : scan_diags [] = [] := rfl

theorem scan_diags_cons (e : ScanEvent) (es : List ScanEvent) :
    scan_diags (e :: es) = event_diags e ++ scan_diags es := rfl

/-- Processing a run of non-terminating events first applies their net
effect on the record and collects their diagnostics, then continues. -/
theorem parse_events_append (es1 : List ScanEvent) (h : no_early_exit es1 = true)
    (a : args_t) (es2 : List ScanEvent) :
    parse_events a (es1 ++ es2) =
      ((parse_events (apply_events a es1) es2).1,
       scan_diags es1 ++ (parse_events (apply_events a es1) es2).2) := by
  induction es1 generalizing a with
  | nil => simp [apply_events_nil, scan_diags_nil]
  | cons e rest ih =>
    have hok : ok_event e = true ∧ no_early_exit rest = true := by
      simpa [no_early_exit, List.all_cons, Bool.and_eq_true] using h
    have ihr := ih hok.2
    rw [List.cons_append]
    cases e with
    | strayPositional s =>
      rw [pe_stray, ihr a]
      simp [apply_events_cons, apply_event, scan_diags_cons, event_diags]
    | unknownFlag s =>
      rw [pe_unknown, ihr a]
      simp [apply_events_cons, apply_event, scan_diags_cons, event_diags]
    | invalidUsage s =>
      rw [pe_invalid, ihr a]
      simp [apply_events_cons, apply_event, scan_diags_cons, event_diags]
    | flagNoArg c =>
      have hch : ¬(c = 'h') := by
        intro hc
        rw [ok_event, hc] at hok
        simp at hok
      by_cases hb : c = 'b'
      · subst hb
        rw [pe_b, ihr]
        simp [apply_events_cons, apply_event, scan_diags_cons, event_diags]
      · by_cases hd : c = 'd'
        · subst hd
          rw [pe_d, ihr]
          simp [apply_events_cons, apply_event, scan_diags_cons, event_diags]
        · have hstep : parse_events a (ScanEvent.flagNoArg c :: (rest ++ es2)) =
              parse_events a (rest ++ es2) := by
            simp only [parse_events]
            rw [if_neg hb, if_neg hd, if_neg hch]
          rw [hstep, ihr a]
          have happ : apply_event a (ScanEvent.flagNoArg c) = a := by
            rw [apply_event]
            rw [if_neg hb, if_neg hd]
          simp [apply_events_cons, happ, scan_diags_cons, event_diags]
    | flagWithArg c v =>
      by_cases hi : c = 'i'
      · subst hi
        rw [pe_i, ihr]
        simp [apply_events_cons, apply_event, scan_diags_cons, event_diags]
      · by_cases ho : c = 'o'
        · subst ho
          rw [pe_o, ihr]
          simp [apply_events_cons, apply_event, scan_diags_cons, event_diags]
        · by_cases hl : c = 'l'
          · subst hl
            have hv : slang_ok v = true := by
              rw [ok_event] at hok
              simpa using hok.1
            rw [pe_l, parse_slang_of_ok v hv a]
            simp only [if_pos rfl]
            rw [ihr]
            simp [apply_events_cons, apply_event, scan_diags_cons, event_diags]
          · have hstep : parse_events a (ScanEvent.flagWithArg c v :: (rest ++ es2)) =
                parse_events a (rest ++ es2) := by
              simp only [parse_events]
              rw [if_neg hi, if_neg ho, if_neg hl]
            rw [hstep, ihr a]
            have happ : apply_event a (ScanEvent.flagWithArg c v) = a := by
              rw [apply_event]
              rw [if_neg hi, if_neg ho, if_neg hl]
            simp [apply_events_cons, happ, scan_diags_cons, event_diags]

/-- Events other than `-l` never change the slang mask; nor does the
Validator or the help exit. -/
theorem parse_events_slang_const (es : List ScanEvent)
    (h : ∀ e ∈ es, is_l_event e = false) (a : args_t) :
    (parse_events a es).1.slang = a.slang := by
  induction es generalizing a with
  | nil => exact validate_slang a
  | cons e rest ih =>
    have hrest : ∀ x ∈ rest, is_l_event x = false := fun x hx => h x (List.mem_cons_of_mem _ hx)
    cases e with
    | strayPositional s => rw [pe_stray]; exact ih hrest a
    | unknownFlag s => rw [pe_unknown]; exact ih hrest a
    | invalidUsage s => rw [pe_invalid]; exact ih hrest a
    | flagNoArg c =>
      by_cases hb : c = 'b'
      · subst hb; rw [pe_b]; exact ih hrest _
      · by_cases hd : c = 'd'
        · subst hd; rw [pe_d]; exact ih hrest _
        · by_cases hh : c = 'h'
          · subst hh; rw [pe_h]
          · have hstep : parse_events a (ScanEvent.flagNoArg c :: rest) =
                parse_events a rest := by
              simp only [parse_events]
              rw [if_neg hb, if_neg hd, if_neg hh]
            rw [hstep]; exact ih hrest a
    | flagWithArg c v =>
      have hcl : ¬(c = 'l') := by
        intro hc
        have := h (ScanEvent.flagWithArg c v) (List.mem_cons_self _ _)
        rw [is_l_event, hc] at this
        simp at this
      by_cases hi : c = 'i'
      · subst hi; rw [pe_i]; exact ih hrest _
      · by_cases ho : c = 'o'
        · subst ho; rw [pe_o]; exact ih hrest _
        · have hstep : parse_events a (ScanEvent.flagWithArg c v :: rest) =
              parse_events a rest := by
            simp only [parse_events]
            rw [if_neg hi, if_neg ho, if_neg hcl]
          rw [hstep]; exact ih hrest a

/-- Inserting a diagnose-and-continue event anywhere in the event list
leaves the returned record unchanged. -/
theorem parse_events_skip_diag (e : ScanEvent) (he : is_diag_event e = true)
    (es1 es2 : List ScanEvent) (a : args_t) :
    (parse_events a (es1 ++ e :: es2)).1 = (parse_events a (es1 ++ es2)).1 := by
  induction es1 generalizing a with
  | nil =>
    cases e with
    | strayPositional s => rw [List.nil_append, List.nil_append, pe_stray]
    | unknownFlag s => rw [List.nil_append, List.nil_append, pe_unknown]
    | invalidUsage s => rw [List.nil_append, List.nil_append, pe_invalid]
    | flagNoArg c => simp [is_diag_event] at he
    | flagWithArg c v => simp [is_diag_event] at he
  | cons f rest ih =>
    rw [List.cons_append, List.cons_append]
    cases f with
    | strayPositional s => rw [pe_stray, pe_stray]; exact ih a
    | unknownFlag s => rw [pe_unknown, pe_unknown]; exact ih a
    | invalidUsage s => rw [pe_invalid, pe_invalid]; exact ih a
    | flagNoArg c =>
      by_cases hb : c = 'b'
      · subst hb; rw [pe_b, pe_b]; exact ih _
      · by_cases hd : c = 'd'
        · subst hd; rw [pe_d, pe_d]; exact ih _
        · by_cases hh : c = 'h'
          · subst hh; rw [pe_h, pe_h]
          · have hstep : ∀ tail, parse_events a (ScanEvent.flagNoArg c :: tail) =
                parse_events a tail := by
              intro tail
              simp only [parse_events]
              rw [if_neg hb, if_neg hd, if_neg hh]
            rw [hstep, hstep]; exact ih a
    | flagWithArg c v =>
      by_cases hi : c = 'i'
      · subst hi; rw [pe_i, pe_i]; exact ih _
      · by_cases ho : c = 'o'
        · subst ho; rw [pe_o, pe_o]; exact ih _
        · by_cases hl : c = 'l'
          · subst hl
            rw [pe_l, pe_l]
            by_cases hok : (parse_slang a v).2.2 = true
            · rw [if_pos hok, if_pos hok]
              simp only
              exact ih _
            · rw [if_neg hok, if_neg hok]
          · have hstep : ∀ tail, parse_events a (ScanEvent.flagWithArg c v :: tail) =
                parse_events a tail := by
              intro tail
              simp only [parse_events]
              rw [if_neg hi, if_neg ho, if_neg hl]
            rw [hstep, hstep]; exact ih a

/-- Every diagnostic a run of non-terminating events emits is a scanner
diagnostic, never a Validator one. -/
theorem scan_diags_are_scan (es : List ScanEvent) :
    ∀ d ∈ scan_diags es, is_scan_diag d = true := by
  intro d hd
  rw [scan_diags, List.mem_flatMap] at hd
  obtain ⟨e, _, hde⟩ := hd
  cases e with
  | strayPositional s => simp [event_diags] at hde; subst hde; rfl
  | unknownFlag s => simp [event_diags] at hde; subst hde; rfl
  | invalidUsage s => simp [event_diags] at hde; subst hde; rfl
  | flagNoArg c => simp [event_diags] at hde
  | flagWithArg c v => simp [event_diags] at hde

/-- The slang parse of a complete list fails exactly when some segment is
unknown. -/
theorem parse_slang_go_fail_iff (L : List String) (a : args_t) :
    (parse_slang_go a L).2.2 = false ↔ ∃ item ∈ L, find_slang item = none := by
  induction L generalizing a with
  | nil => simp [parse_slang_go]
  | cons item rest ih =>
    rcases hfs : find_slang item with _ | i
    · simp only [parse_slang_go, hfs]
      exact ⟨fun _ => ⟨item, List.mem_cons_self item rest, hfs⟩, fun _ => by trivial⟩
    · simp only [parse_slang_go, hfs]
      constructor
      · intro h
        obtain ⟨x, hx, hn⟩ := (ih _).1 h
        exact ⟨x, List.mem_cons_of_mem _ hx, hn⟩
      · rintro ⟨x, hx, hn⟩
        rcases List.mem_cons.1 hx with rfl | hx2
        · rw [hfs] at hn; cases hn
        · exact (ih _).2 ⟨x, hx2, hn⟩

/-- An unknown-shader-language diagnostic is emitted exactly when some
segment is unknown. -/
theorem parse_slang_go_diag_iff (L : List String) (a : args_t) :
    (∃ s, Diag.unknownSlang s ∈ (parse_slang_go a L).2.1) ↔
      ∃ item ∈ L, find_slang item = none := by
  induction L generalizing a with
  | nil => simp [parse_slang_go]
  | cons item rest ih =>
    rcases hfs : find_slang item with _ | i
    · simp only [parse_slang_go, hfs]
      constructor
      · intro _
        exact ⟨item, List.mem_cons_self item rest, hfs⟩
      · intro _
        exact ⟨item, by simp⟩
    · simp only [parse_slang_go, hfs]
      constructor
      · intro h
        obtain ⟨x, hx, hn⟩ := (ih _).1 h
        exact ⟨x, List.mem_cons_of_mem _ hx, hn⟩
      · rintro ⟨x, hx, hn⟩
        rcases List.mem_cons.1 hx with rfl | hx2
        · rw [hfs] at hn; cases hn
        · exact (ih _).2 ⟨x, hx2, hn⟩

/-- A `-i p -o q -l v` command line with a well-formed slang value reduces
to validating the corresponding record. -/
theorem parse_iol (p q v : String) (hv : slang_ok v = true) :
    parse ["-i", p, "-o", q, "-l", v] =
      validate { input := p, output := q, slang := slang_mask_of v } := by
  rw [parse, scan_i, scan_o, scan_l, scan_nil, pe_i, pe_o, pe_l]
  rw [parse_slang_of_ok v hv]
  simp only [if_pos rfl]
  rw [pe_nil]
  simp

/-- An event list that reaches help splits into a fully-processed run
followed by the help event. -/
theorem reaches_help_split (es : List ScanEvent) (h : reaches_help es = true) :
    ∃ es1 es2, es = es1 ++ ScanEvent.flagNoArg 'h' :: es2 ∧ no_early_exit es1 = true := by
  induction es with
  | nil => rw [reaches_help] at h; simp at h
  | cons e rest ih =>
    rw [reaches_help, Bool.or_eq_true, Bool.and_eq_true] at h
    rcases h with hh | ⟨hok, hrest⟩
    · cases e with
      | flagNoArg c =>
        have : c = 'h' := by
          rw [is_help_event] at hh
          simpa using hh
        subst this
        exact ⟨[], rest, rfl, rfl⟩
      | strayPositional s => simp [is_help_event] at hh
      | unknownFlag s => simp [is_help_event] at hh
      | invalidUsage s => simp [is_help_event] at hh
      | flagWithArg c v => simp [is_help_event] at hh
    · obtain ⟨es1, es2, heq, hne⟩ := ih hrest
      refine ⟨e :: es1, es2, by rw [heq, List.cons_append], ?_⟩
      rw [no_early_exit, List.all_cons, Bool.and_eq_true]
      exact ⟨hok, hne⟩

/-! The claims. -/

/-- C1: an argument list supplying `-i` with a non-empty path, `-o` with a
non-empty path, and `-l` with a single known shader-language name parses
with `valid = true`, `exit_code = 0`, `input`/`output` equal to the supplied
strings, and `slang` equal to exactly that language's bit. -/
theorem parse_valid_single_slang (p q : String) (hp : ¬(p = "")) (hq : ¬(q = ""))
    (i : Fin 6) :
    (parse ["-i", p, "-o", q, "-l", slang_t.to_str i.val]).1.valid = true ∧
    (parse ["-i", p, "-o", q, "-l", slang_t.to_str i.val]).1.exit_code = 0 ∧
    (parse ["-i", p, "-o", q, "-l", slang_t.to_str i.val]).1.input = p ∧
    (parse ["-i", p, "-o", q, "-l", slang_t.to_str i.val]).1.output = q ∧
    (parse ["-i", p, "-o", q, "-l", slang_t.to_str i.val]).1.slang = slang_t.bit i.val := by
  have hv : slang_ok (slang_t.to_str i.val) = true := by fin_cases i <;> decide
  have hmask : slang_mask_of (slang_t.to_str i.val) = slang_t.bit i.val := by
    fin_cases i <;> decide
  have hnz : ¬(slang_t.bit i.val = 0) := by fin_cases i <;> decide
  rw [parse_iol p q _ hv, hmask]
  simp [validate, hp, hq, hnz]

/-- Witness for C1 at the input `-i shader.glsl -o out.h -l hlsl5`. -/
theorem parse_valid_single_slang_witness :
    (parse ["-i", "shader.glsl", "-o", "out.h", "-l", "hlsl5"]).1.valid = true ∧
    (parse ["-i", "shader.glsl", "-o", "out.h", "-l", "hlsl5"]).1.exit_code = 0 ∧
    (parse ["-i", "shader.glsl", "-o", "out.h", "-l", "hlsl5"]).1.input = "shader.glsl" ∧
    (parse ["-i", "shader.glsl", "-o", "out.h", "-l", "hlsl5"]).1.output = "out.h" ∧
    (parse ["-i", "shader.glsl", "-o", "out.h", "-l", "hlsl5"]).1.slang = slang_t.bit 3 :=
  parse_valid_single_slang "shader.glsl" "out.h" (by decide) (by decide) 3

/-- C2: the Validator evaluates all three checks without short-circuiting:
each failing check contributes exactly its own diagnostic, in the fixed
order input, output, slang; any failure gives `valid = false` and
`exit_code = 10`, all passing gives `valid = true` and `exit_code = 0`;
and `parse []` fails with all three diagnostics emitted. -/
theorem validator_aggregates :
    (∀ a : args_t,
      ((validate a).2).Sublist [Diag.noInput, Diag.noOutput, Diag.noSlang] ∧
      (Diag.noInput ∈ (validate a).2 ↔ a.input = "") ∧
      (Diag.noOutput ∈ (validate a).2 ↔ a.output = "") ∧
      (Diag.noSlang ∈ (validate a).2 ↔ a.slang = 0) ∧
      ((validate a).1.valid = true ↔ ¬(a.input = "" ∨ a.output = "" ∨ a.slang = 0)) ∧
      ((validate a).1.exit_code = if (validate a).1.valid then 0 else 10)) ∧
    ((parse []).1.valid = false ∧ (parse []).1.exit_code = 10 ∧
     (parse []).2 = [Diag.noInput, Diag.noOutput, Diag.noSlang]) := by
  constructor
  · intro a
    by_cases h1 : a.input = "" <;> by_cases h2 : a.output = "" <;> by_cases h3 : a.slang = 0 <;>
      simp [validate, h1, h2, h3]
  · exact ⟨by decide, by decide, by decide⟩

/-- C3: the slang parser is fail-fast: as soon as one split segment is
unknown it reports that segment, sets `valid = false` and `exit_code = 10`,
and processes no later segment, keeping the bits accumulated before the
failure; concretely, for `-l glsl330:bogus:hlsl5` the glsl330 bit is kept,
the hlsl5 bit is never added, and the whole parse fails with exit code
10. -/
theorem slang_fail_fast :
    (∀ (a : args_t) (v : String) (pre : List String) (bad : String) (post : List String),
      pystring_split v = pre ++ bad :: post →
      (∀ item ∈ pre, seg_known item = true) →
      find_slang bad = none →
      parse_slang a v =
        ({ a with slang := mask_of pre, valid := false, exit_code := 10 },
         [Diag.unknownSlang bad], false)) ∧
    ((parse ["-l", "glsl330:bogus:hlsl5"]).1.valid = false ∧
     (parse ["-l", "glsl330:bogus:hlsl5"]).1.exit_code = 10 ∧
     (parse ["-l", "glsl330:bogus:hlsl5"]).1.slang = slang_t.bit 0 ∧
     (parse ["-l", "glsl330:bogus:hlsl5"]).1.slang.testBit 3 = false ∧
     (parse ["-l", "glsl330:bogus:hlsl5"]).2 = [Diag.unknownSlang "bogus"]) := by
  constructor
  · intro a v pre bad post hsplit hpre hbad
    exact parse_slang_of_fail v pre bad post hsplit hpre hbad a
  · exact ⟨by decide, by decide, by decide, by decide, by decide⟩

/-- Witness for C3 at the value `glsl330:bogus:hlsl5`. -/
theorem slang_fail_fast_witness :
    pystring_split "glsl330:bogus:hlsl5" = ["glsl330"] ++ "bogus" :: ["hlsl5"] ∧
    (∀ item ∈ ["glsl330"], seg_known item = true) ∧
    find_slang "bogus" = none ∧
    parse_slang {} "glsl330:bogus:hlsl5" =
      ({ ({} : args_t) with slang := mask_of ["glsl330"], valid := false, exit_code := 10 },
       [Diag.unknownSlang "bogus"], false) :=
  ⟨by decide, by decide, by decide,
   slang_fail_fast.1 {} "glsl330:bogus:hlsl5" ["glsl330"] "bogus" ["hlsl5"]
     (by decide) (by decide) (by decide)⟩

/-- C4 counterexample: the argument list `-l bogus -h` contains the help
flag, yet parse returns exit code 10 (not 0) and never renders the help
text, because the failing slang parse terminates the scan first. -/
theorem help_not_unconditional_cex :
    "-h" ∈ ["-l", "bogus", "-h"] ∧
    (parse ["-l", "bogus", "-h"]).1.exit_code = 10 ∧
    (parse ["-l", "bogus", "-h"]).1.valid = false ∧
    Diag.helpText ∉ (parse ["-l", "bogus", "-h"]).2 := by decide

/-- C4 (amended): for every argument list whose scan reaches the help flag
before any failing `-l` value terminates the event loop, parse renders the
help text, skips the Validator, and returns `valid = false` with
`exit_code = 0`, with no validation diagnostics emitted. -/
theorem help_short_circuits (argv : List String)
    (h : reaches_help (scan_events argv) = true) :
    (parse argv).1.valid = false ∧ (parse argv).1.exit_code = 0 ∧
    Diag.helpText ∈ (parse argv).2 ∧
    Diag.noInput ∉ (parse argv).2 ∧ Diag.noOutput ∉ (parse argv).2 ∧
    Diag.noSlang ∉ (parse argv).2 := by
  obtain ⟨es1, es2, heq, hne⟩ := reaches_help_split _ h
  rw [parse, heq, parse_events_append es1 hne, pe_h]
  refine ⟨rfl, rfl, by simp, ?_, ?_, ?_⟩ <;>
  · intro hmem
    rcases List.mem_append.1 hmem with hm | hm
    · have := scan_diags_are_scan es1 _ hm
      simp [is_scan_diag] at this
    · simp at hm

/-- Witness for the amended C4 at the input `-i x -h`. -/
theorem help_short_circuits_witness :
    reaches_help (scan_events ["-i", "x", "-h"]) = true ∧
    ((parse ["-i", "x", "-h"]).1.valid = false ∧
     (parse ["-i", "x", "-h"]).1.exit_code = 0 ∧
     Diag.helpText ∈ (parse ["-i", "x", "-h"]).2 ∧
     Diag.noInput ∉ (parse ["-i", "x", "-h"]).2 ∧
     Diag.noOutput ∉ (parse ["-i", "x", "-h"]).2 ∧
     Diag.noSlang ∉ (parse ["-i", "x", "-h"]).2) :=
  ⟨by decide, help_short_circuits ["-i", "x", "-h"] (by decide)⟩

/-- C5: for every non-empty subset S of the shader-language enumeration,
parsing the colon-joined canonical names of S's members succeeds and
yields a mask whose member set is exactly S. -/
theorem slang_roundtrip :
    ∀ S : Finset (Fin 6), S.Nonempty →
      (parse_slang {} (String.intercalate ":"
          (((List.finRange 6).filter fun i => i ∈ S).map
            fun i => slang_t.to_str i.val))).2.2 = true ∧
      ∀ j : Fin 6,
        ((parse_slang {} (String.intercalate ":"
          (((List.finRange 6).filter fun i => i ∈ S).map
            fun i => slang_t.to_str i.val))).1.slang.testBit j.val ↔ j ∈ S) := by
  decide

/-- Witness for C5 at the subset consisting of glsl330 and hlsl5. -/
theorem slang_roundtrip_witness :
    ({0, 3} : Finset (Fin 6)).Nonempty ∧
    ((parse_slang {} (String.intercalate ":"
        (((List.finRange 6).filter fun i => i ∈ ({0, 3} : Finset (Fin 6))).map
          fun i => slang_t.to_str i.val))).2.2 = true ∧
     ∀ j : Fin 6,
       ((parse_slang {} (String.intercalate ":"
         (((List.finRange 6).filter fun i => i ∈ ({0, 3} : Finset (Fin 6))).map
           fun i => slang_t.to_str i.val))).1.slang.testBit j.val ↔
         j ∈ ({0, 3} : Finset (Fin 6)))) :=
  ⟨by decide, slang_roundtrip {0, 3} (by decide)⟩

/-- C6: unknown-flag and invalid-usage events are non-fatal: the event
loop emits their diagnostic (when reached) and otherwise returns exactly
the record it would have returned without them, so the final verdict is
still the Validator's. -/
theorem scanner_lenient :
    ∀ (a : args_t) (es1 es2 : List ScanEvent) (s : String),
      ((parse_events a (es1 ++ ScanEvent.unknownFlag s :: es2)).1 =
        (parse_events a (es1 ++ es2)).1 ∧
       (no_early_exit es1 = true →
        Diag.unknownFlag s ∈ (parse_events a (es1 ++ ScanEvent.unknownFlag s :: es2)).2)) ∧
      ((parse_events a (es1 ++ ScanEvent.invalidUsage s :: es2)).1 =
        (parse_events a (es1 ++ es2)).1 ∧
       (no_early_exit es1 = true →
        Diag.invalidUse s ∈ (parse_events a (es1 ++ ScanEvent.invalidUsage s :: es2)).2)) := by
  intro a es1 es2 s
  refine ⟨⟨parse_events_skip_diag (ScanEvent.unknownFlag s) rfl es1 es2 a, ?_⟩,
          ⟨parse_events_skip_diag (ScanEvent.invalidUsage s) rfl es1 es2 a, ?_⟩⟩
  · intro hne
    rw [parse_events_append es1 hne, pe_unknown]
    simp
  · intro hne
    rw [parse_events_append es1 hne, pe_invalid]
    simp

/-- Witness for C6 with an unknown flag as the only event. -/
theorem scanner_lenient_witness :
    (parse_events {} ([] ++ ScanEvent.unknownFlag "-z" :: [])).1 =
      (parse_events {} ([] ++ [])).1 ∧
    Diag.unknownFlag "-z" ∈ (parse_events {} ([] ++ ScanEvent.unknownFlag "-z" :: [])).2 :=
  ⟨(scanner_lenient {} [] [] "-z").1.1, (scanner_lenient {} [] [] "-z").1.2 (by decide)⟩

/-- C7: the slang parser matches only the non-empty segments of the split
(empty segments, as in `glsl330:`, are skipped), and the unknown-language
error arises exactly when some non-empty segment matches no canonical
name. -/
theorem unknown_slang_iff :
    ∀ (a : args_t) (v : String),
      ((parse_slang a v).2.2 = false ↔ ∃ item ∈ pystring_split v, find_slang item = none) ∧
      ((∃ s, Diag.unknownSlang s ∈ (parse_slang a v).2.1) ↔
        ∃ item ∈ pystring_split v, find_slang item = none) ∧
      parse_slang a "glsl330:" = ({ a with slang := slang_t.bit 0 }, [], true) := by
  intro a v
  refine ⟨parse_slang_go_fail_iff _ _, parse_slang_go_diag_iff _ _, ?_⟩
  rw [parse_slang_of_ok "glsl330:" (by decide) a]
  rw [show slang_mask_of "glsl330:" = slang_t.bit 0 from rfl]

/-- C8: parsing is deterministic: two invocations of parse on the same
argument list yield identical records (all seven fields) and identical
diagnostics; the embedding is a pure function of the argument list
because the source keeps no mutable state across calls. -/
theorem parse_deterministic (argv : List String) :
    (parse_twice argv).1.1.valid = (parse_twice argv).2.1.valid ∧
    (parse_twice argv).1.1.input = (parse_twice argv).2.1.input ∧
    (parse_twice argv).1.1.output = (parse_twice argv).2.1.output ∧
    (parse_twice argv).1.1.slang = (parse_twice argv).2.1.slang ∧
    (parse_twice argv).1.1.byte_code = (parse_twice argv).2.1.byte_code ∧
    (parse_twice argv).1.1.debug_dump = (parse_twice argv).2.1.debug_dump ∧
    (parse_twice argv).1.1.exit_code = (parse_twice argv).2.1.exit_code ∧
    (parse_twice argv).1.2 = (parse_twice argv).2.2 :=
  ⟨rfl, rfl, rfl, rfl, rfl, rfl, rfl, rfl⟩

/-- C9: each `-l` occurrence resets the accumulating mask before parsing
its value, so when several `-l` flags all parse successfully the final
mask is that of the last one alone, not the union. -/
theorem last_slang_wins :
    (∀ (a : args_t) (m : Nat) (v : String),
      parse_slang { a with slang := m } v = parse_slang a v) ∧
    (∀ (argv : List String) (v : String) (es1 es2 : List ScanEvent),
      scan_events argv = es1 ++ ScanEvent.flagWithArg 'l' v :: es2 →
      no_early_exit es1 = true → slang_ok v = true →
      (∀ e ∈ es2, is_l_event e = false) →
      (parse argv).1.slang = slang_mask_of v) := by
  refine ⟨fun a m v => rfl, ?_⟩
  intro argv v es1 es2 heq hne hok hes2
  rw [parse, heq, parse_events_append es1 hne, pe_l, parse_slang_of_ok v hok]
  simp [parse_events_slang_const es2 hes2]

/-- Witness for C9 at the input `-l glsl330 -l hlsl5`. -/
theorem last_slang_wins_witness :
    (parse ["-l", "glsl330", "-l", "hlsl5"]).1.slang = slang_mask_of "hlsl5" ∧
    slang_mask_of "hlsl5" = slang_t.bit 3 :=
  ⟨last_slang_wins.2 ["-l", "glsl330", "-l", "hlsl5"] "hlsl5"
      [ScanEvent.flagWithArg 'l' "glsl330"] []
      (by decide) (by decide) (by decide) (by decide),
   rfl⟩

/-- C10: a stray positional token only produces a diagnostic: the event
loop returns a record with every field (input, output, slang, byte_code,
debug_dump, valid, exit_code) equal to what it returns without the stray
event. -/
theorem stray_frame :
    ∀ (a : args_t) (es1 es2 : List ScanEvent) (s : String),
      ((parse_events a (es1 ++ ScanEvent.strayPositional s :: es2)).1.input =
        (parse_events a (es1 ++ es2)).1.input ∧
       (parse_events a (es1 ++ ScanEvent.strayPositional s :: es2)).1.output =
        (parse_events a (es1 ++ es2)).1.output ∧
       (parse_events a (es1 ++ ScanEvent.strayPositional s :: es2)).1.slang =
        (parse_events a (es1 ++ es2)).1.slang ∧
       (parse_events a (es1 ++ ScanEvent.strayPositional s :: es2)).1.byte_code =
        (parse_events a (es1 ++ es2)).1.byte_code ∧
       (parse_events a (es1 ++ ScanEvent.strayPositional s :: es2)).1.debug_dump =
        (parse_events a (es1 ++ es2)).1.debug_dump ∧
       (parse_events a (es1 ++ ScanEvent.strayPositional s :: es2)).1.valid =
        (parse_events a (es1 ++ es2)).1.valid ∧
       (parse_events a (es1 ++ ScanEvent.strayPositional s :: es2)).1.exit_code =
        (parse_events a (es1 ++ es2)).1.exit_code) ∧
      (no_early_exit es1 = true →
       Diag.strayArg s ∈ (parse_events a (es1 ++ ScanEvent.strayPositional s :: es2)).2) := by
  intro a es1 es2 s
  have h := parse_events_skip_diag (ScanEvent.strayPositional s) rfl es1 es2 a
  refine ⟨⟨?_, ?_, ?_, ?_, ?_, ?_, ?_⟩, ?_⟩
  · rw [h]
  · rw [h]
  · rw [h]
  · rw [h]
  · rw [h]
  · rw [h]
  · rw [h]
  · intro hne
    rw [parse_events_append es1 hne, pe_stray]
    simp

/-- Witness for C10 with a stray positional as the only event. -/
theorem stray_frame_witness :
    (parse_events {} ([] ++ ScanEvent.strayPositional "file.glsl" :: [])).1.input =
      (parse_events {} ([] ++ [])).1.input ∧
    Diag.strayArg "file.glsl" ∈
      (parse_events {} ([] ++ ScanEvent.strayPositional "file.glsl" :: [])).2 :=
  ⟨(stray_frame {} [] [] "file.glsl").1.1, (stray_frame {} [] [] "file.glsl").2 (by decide)⟩

end shdc
